import Mathlib

/-!
Verification of the ansinator rendering engine against its specification.

The Rust source is embedded shallowly:
* pure functions become Lean functions;
* u8 / u32 / usize arithmetic is modelled over Nat (every operation is checked
  against overflow and wrap-around at the point of use, and a panic that the
  Rust code can actually reach -- assert failure, index out of bounds,
  integer-underflow or division by zero -- is modelled as Except.error ());
* f64 values that only ever hold small integers (quadrance sums, the
  f64::MAX sentinel) are modelled over Int, which is exact for them; the
  Otsu variance, which genuinely divides, is modelled over Rat.
-/

namespace Ansinator

/-! ## Windowing (core/ansinator_image_window/src/lib.rs) -/

/-- Window of pixels, from struct Window: width, height and a row-major
copy of the pixel data. -/
structure Window (P : Type) where
  width : Nat
  height : Nat
  data : List P
deriving Repr, DecidableEq

/-- A pixel buffer (image::ImageBuffer): dimensions plus pixel lookup.
All ImageBuffer.get_pixel calls made by the embedded code are proven
in bounds, so a total lookup function is faithful. -/
structure Img (P : Type) where
  width : Nat
  height : Nat
  pix : Nat → Nat → P

/-- Result of the ImageWindow split, from struct ImageWindow. -/
structure ImageWindow (P : Type) where
  windows_per_row : Nat
  windows_per_col : Nat
  image_width : Nat
  image_height : Nat
  windows : List (Window P)

/-- Rust (0..n).step_by(k) for k > 0: the values 0, k, 2k, ... below n. -/
def stepRange (n k : Nat) : List Nat :=
  (List.range ((n + k - 1) / k)).map (fun m => m * k)

/-- Pixel data copied by the inner double loop of to_window:
data is pushed for j in 0..height, i in 0..width as self.get_pixel(x+i, y+j). -/
def windowData (P : Type) (img : Img P) (w h x y : Nat) : List P :=
  (List.range h).flatMap (fun j => (List.range w).map (fun i => img.pix (x + i) (y + j)))

/-- The windows vector built by to_window: y over (0..H-h).step_by(h),
x over (0..W-w).step_by(w), pushing Window \x7b width, height, data \x7d. -/
def windowsList (P : Type) (img : Img P) (w h : Nat) : List (Window P) :=
  (stepRange (img.height - h) h).flatMap (fun y =>
    (stepRange (img.width - w) w).map (fun x =>
      { width := w, height := h, data := windowData P img w h x y }))

/-- Windowing.to_window for ImageBuffer.  Except.error () models the panics the
Rust code can reach: step_by(0) when w = 0 or h = 0 slips past the bounds test,
and the u32 division windows.len() / windows_per_row when windows_per_row
= (W - w) / w is zero.  The zero checks are hoisted before the window
construction, which builds the same value in the non-panicking cases. -/
def to_window (P : Type) (img : Img P) (w h : Nat) : Except Unit (Option (ImageWindow P)) :=
  if w ≤ img.width ∧ h ≤ img.height then
    if w = 0 ∨ h = 0 then .error ()
    else if (img.width - w) / w = 0 then .error ()
    else
      let windows := windowsList P img w h
      .ok (some { windows_per_row := (img.width - w) / w
                , windows_per_col := windows.length / ((img.width - w) / w)
                , image_width := img.width
                , image_height := img.height
                , windows := windows })
  else .ok none

/-- Window.get_pixel: asserts x < width and y < height, then returns
data[x as usize * (width * y) as usize].  Except.error () models both the
assert failure and an out-of-bounds vector index. -/
def Window.get_pixel (P : Type) (win : Window P) (x y : Nat) : Except Unit P :=
  if x < win.width ∧ y < win.height then
    match win.data[x * (win.width * y)]? with
    | some p => .ok p
    | none => .error ()
  else .error ()

/-- Window.get_pixel_checked: Some (get_pixel x y) when in bounds, None
otherwise; the inner get_pixel call can still panic. -/
def Window.get_pixel_checked (P : Type) (win : Window P) (x y : Nat) :
    Except Unit (Option P) :=
  if x < win.width ∧ y < win.height then
    match Window.get_pixel P win x y with
    | .ok p => .ok (some p)
    | .error e => .error e
  else .ok none

/-! ## List helper lemmas -/

/-- Length of a flatMap whose pieces all have length n. -/
theorem flatMap_length_uniform {α β : Type} (l : List α) (g : α → List β) (n : Nat)
    (hn : ∀ a ∈ l, (g a).length = n) :
    (l.flatMap g).length = l.length * n := by
  induction l with
  | nil => simp
  | cons a tl ih =>
    simp only [List.flatMap_cons, List.length_append, List.length_cons]
    rw [hn a (List.mem_cons_self a tl), ih (fun b hb => hn b (List.mem_cons_of_mem a hb))]
    ring

/-- Indexing a flatMap whose pieces all have length n: the element at
r * n + c is element c of piece r. -/
theorem flatMap_getElem_uniform {α β : Type} (l : List α) (g : α → List β) (n : Nat)
    (hn : ∀ a ∈ l, (g a).length = n) (r c : Nat) (hr : r < l.length) (hc : c < n) :
    (l.flatMap g)[r * n + c]? = (g (l.get ⟨r, hr⟩))[c]? := by
  induction l generalizing r with
  | nil => simp at hr
  | cons a tl ih =>
    cases r with
    | zero =>
      simp only [List.flatMap_cons, Nat.zero_mul, Nat.zero_add]
      rw [List.getElem?_append_left]
      · rfl
      · rw [hn a (List.mem_cons_self a tl)]; exact hc
    | succ r =>
      have hlen : (g a).length = n := hn a (List.mem_cons_self a tl)
      have hidx : (g a).length ≤ (r + 1) * n + c := by
        rw [hlen, Nat.succ_mul]
        omega
      simp only [List.flatMap_cons]
      rw [List.getElem?_append_right hidx, hlen]
      have harith : (r + 1) * n + c - n = r * n + c := by
        rw [Nat.succ_mul]; omega
      rw [harith]
      have hr' : r < tl.length := by simpa using hr
      rw [ih (fun b hb => hn b (List.mem_cons_of_mem a hb)) r hr']
      rfl

theorem stepRange_length (n k : Nat) : (stepRange n k).length = (n + k - 1) / k := by
  simp [stepRange]

theorem stepRange_get (n k : Nat) (m : Nat) (hm : m < (stepRange n k).length) :
    (stepRange n k).get ⟨m, hm⟩ = m * k := by
  simp [stepRange]

theorem stepRange_getElem (n k m : Nat) (hm : m < (n + k - 1) / k) :
    (stepRange n k)[m]? = some (m * k) := by
  simp [stepRange, List.getElem?_map, List.getElem?_range hm]

/-! ## Claim C1 -/

/-- C1 (amended): for W, H, w, h ≥ 1, to_window returns None exactly when
w > W or h > H; when w ≤ W and h ≤ H it panics (u32 division by zero) exactly
when W < 2w; and when moreover 2w ≤ W it returns Some of a row-major list of
(H-1)/h by (W-1)/w non-overlapping windows, the window in row r, column c
holding at local index j*w + i the source pixel (c*w + i, r*h + j). -/
theorem to_window_spec (P : Type) (img : Img P) (w h : Nat)
    (hw : 1 ≤ w) (hh : 1 ≤ h) (hW : 1 ≤ img.width) (hH : 1 ≤ img.height) :
    (to_window P img w h = .ok none ↔ (img.width < w ∨ img.height < h))
    ∧ (to_window P img w h = .error () ↔
        (w ≤ img.width ∧ h ≤ img.height ∧ img.width < 2 * w))
    ∧ (w ≤ img.width → h ≤ img.height → 2 * w ≤ img.width →
        ∃ iw, to_window P img w h = .ok (some iw)
          ∧ iw.windows.length = ((img.height - 1) / h) * ((img.width - 1) / w)
          ∧ ∀ r c j i, r < (img.height - 1) / h → c < (img.width - 1) / w →
              j < h → i < w →
              ∃ win, iw.windows[r * ((img.width - 1) / w) + c]? = some win
                ∧ win.width = w ∧ win.height = h
                ∧ win.data[j * w + i]? = some (img.pix (c * w + i) (r * h + j))) := by
  have hz : ¬ (w = 0 ∨ h = 0) := by omega
  refine ⟨?_, ?_, ?_⟩
  · by_cases hle : w ≤ img.width ∧ h ≤ img.height
    · rw [to_window, if_pos hle, if_neg hz]
      constructor
      · intro hcontra
        by_cases hzero : (img.width - w) / w = 0 <;> simp [hzero] at hcontra
      · intro hcontra
        exact absurd hcontra (by omega)
    · rw [to_window, if_neg hle]
      constructor
      · intro _
        omega
      · intro _
        rfl
  · by_cases hle : w ≤ img.width ∧ h ≤ img.height
    · rw [to_window, if_pos hle, if_neg hz]
      have hdiv : (img.width - w) / w = 0 ↔ img.width - w < w := Nat.div_eq_zero_iff hw
      by_cases hzero : (img.width - w) / w = 0
      · rw [if_pos hzero]
        have hlt := hdiv.mp hzero
        constructor
        · intro _
          exact ⟨hle.1, hle.2, by omega⟩
        · intro _
          rfl
      · rw [if_neg hzero]
        constructor
        · intro hcontra
          exact Except.noConfusion hcontra
        · intro hcontra
          exact absurd (hdiv.mpr (by omega)) hzero
    · rw [to_window, if_neg hle]
      constructor
      · intro hcontra
        exact Except.noConfusion hcontra
      · intro hcontra
        exact absurd ⟨hcontra.1, hcontra.2.1⟩ hle
  · intro hwW hhH h2w
    have hxslen : (stepRange (img.width - w) w).length = (img.width - 1) / w := by
      rw [stepRange_length]
      congr 1
      omega
    have hyslen : (stepRange (img.height - h) h).length = (img.height - 1) / h := by
      rw [stepRange_length]
      congr 1
      omega
    have hle : w ≤ img.width ∧ h ≤ img.height := ⟨hwW, hhH⟩
    have hzero : ¬ (img.width - w) / w = 0 := by
      rw [Nat.div_eq_zero_iff hw]
      omega
    rw [to_window, if_pos hle, if_neg hz, if_neg hzero]
    refine ⟨_, rfl, ?_, ?_⟩
    · rw [windowsList,
        flatMap_length_uniform _ _ ((img.width - 1) / w)
          (fun a _ => by rw [List.length_map, hxslen]),
        hyslen]
    · intro r c j i hr hc hj hi
      have hr' : r < (stepRange (img.height - h) h).length := by rw [hyslen]; exact hr
      have hwin : (windowsList P img w h)[r * ((img.width - 1) / w) + c]? =
          ((stepRange (img.width - w) w).map (fun x =>
            ({ width := w, height := h, data := windowData P img w h x
                ((stepRange (img.height - h) h).get ⟨r, hr'⟩) } : Window P)))[c]? := by
        rw [windowsList]
        exact flatMap_getElem_uniform _ _ ((img.width - 1) / w)
          (fun a _ => by rw [List.length_map, hxslen]) r c hr' hc
      rw [stepRange_get] at hwin
      have hc' : c < (img.width - w + w - 1) / w := by
        have : img.width - w + w - 1 = img.width - 1 := by omega
        rw [this]
        exact hc
      rw [List.getElem?_map, stepRange_getElem _ _ _ hc'] at hwin
      refine ⟨_, hwin, rfl, rfl, ?_⟩
      have hj' : j < (List.range h).length := by rw [List.length_range]; exact hj
      have hdata : (windowData P img w h (c * w) (r * h))[j * w + i]? =
          ((List.range w).map (fun i =>
            img.pix (c * w + i) (r * h + (List.range h).get ⟨j, hj'⟩)))[i]? := by
        rw [windowData]
        exact flatMap_getElem_uniform _ _ w
          (fun a _ => by rw [List.length_map, List.length_range]) j i hj' hi
      rw [List.get_range] at hdata
      rw [hdata, List.getElem?_map, List.getElem?_range hi]
      rfl

/-- C1 witness: the amended partition statement evaluated on the 5 by 3 image
with pixel value x + 10*y and 2 by 1 windows. -/
theorem to_window_spec_witness :
    ∃ iw, to_window Nat (Img.mk 5 3 (fun x y => x + 10 * y)) 2 1 = .ok (some iw)
      ∧ iw.windows.length = ((3 - 1) / 1) * ((5 - 1) / 2)
      ∧ ∀ r c j i, r < (3 - 1) / 1 → c < (5 - 1) / 2 → j < 1 → i < 2 →
          ∃ win, iw.windows[r * ((5 - 1) / 2) + c]? = some win
            ∧ win.width = 2 ∧ win.height = 1
            ∧ win.data[j * 2 + i]? = some (c * 2 + i + 10 * (r * 1 + j)) :=
  (to_window_spec Nat (Img.mk 5 3 (fun x y => x + 10 * y)) 2 1 (by decide) (by decide)
    (by decide) (by decide)).2.2 (by decide) (by decide) (by decide)

/-- C1 counterexample: a 2 by 2 buffer split into 1 by 1 windows.  The claim
says to_window partitions it into (floor((2-1)/1)+1) * (floor((2-1)/1)+1) = 4
windows; the code builds exactly 1 window (the exclusive loop bounds
0..W-w drop the last column and row whenever w divides W-w). -/
theorem to_window_count_counterexample :
    ∃ iw, to_window Nat (Img.mk 2 2 (fun _ _ => 0)) 1 1 = .ok (some iw)
      ∧ iw.windows.length = 1 ∧ ((2 - 1) / 1 + 1) * ((2 - 1) / 1 + 1) ≠ 1 := by
  refine ⟨_, rfl, rfl, by decide⟩

/-! ## Claim C2 -/

/-- C2: Window.get_pixel computes the index x * (width * y) instead of the
row-major y * width + x its documentation describes.  On a 3 by 2 window it
panics in bounds at (2,1) (index 6 into 6 elements) -- get_pixel_checked
propagates the same panic -- and at (1,1) it returns data[3] = 13 instead of
the row-major pixel data[4] = 14. -/
theorem get_pixel_index_bug :
    Window.get_pixel Nat (Window.mk 3 2 [10, 11, 12, 13, 14, 15]) 2 1 = .error ()
    ∧ Window.get_pixel_checked Nat (Window.mk 3 2 [10, 11, 12, 13, 14, 15]) 2 1 = .error ()
    ∧ Window.get_pixel Nat (Window.mk 3 2 [10, 11, 12, 13, 14, 15]) 1 1 = .ok 13
    ∧ (13 : Nat) ≠ 14 := by
  exact ⟨rfl, rfl, rfl, by decide⟩

/-! ## Font catalog (core/ansinator_ascii_font/src/lib.rs) -/

/-- ASCII_FONT: the 95 printable-ASCII 5x7 glyph bitmaps, 5 column bytes per
character; bit y of column byte x is row y of column x. -/
def ASCII_FONT : List (List Nat) := [
  [0x00, 0x00, 0x00, 0x00, 0x00],
  [0x00, 0x00, 0x5F, 0x00, 0x00],
  [0x00, 0x07, 0x00, 0x07, 0x00],
  [0x14, 0x7F, 0x14, 0x7F, 0x14],
  [0x24, 0x2A, 0x7F, 0x2A, 0x12],
  [0x23, 0x13, 0x08, 0x64, 0x62],
  [0x36, 0x49, 0x55, 0x22, 0x50],
  [0x00, 0x05, 0x03, 0x00, 0x00],
  [0x00, 0x1C, 0x22, 0x41, 0x00],
  [0x00, 0x41, 0x22, 0x1C, 0x00],
  [0x08, 0x2A, 0x1C, 0x2A, 0x08],
  [0x08, 0x08, 0x3E, 0x08, 0x08],
  [0x00, 0x50, 0x30, 0x00, 0x00],
  [0x08, 0x08, 0x08, 0x08, 0x08],
  [0x00, 0x60, 0x60, 0x00, 0x00],
  [0x20, 0x10, 0x08, 0x04, 0x02],
  [0x3E, 0x51, 0x49, 0x45, 0x3E],
  [0x00, 0x42, 0x7F, 0x40, 0x00],
  [0x42, 0x61, 0x51, 0x49, 0x46],
  [0x21, 0x41, 0x45, 0x4B, 0x31],
  [0x18, 0x14, 0x12, 0x7F, 0x10],
  [0x27, 0x45, 0x45, 0x45, 0x39],
  [0x3C, 0x4A, 0x49, 0x49, 0x30],
  [0x01, 0x71, 0x09, 0x05, 0x03],
  [0x36, 0x49, 0x49, 0x49, 0x36],
  [0x06, 0x49, 0x49, 0x29, 0x1E],
  [0x00, 0x36, 0x36, 0x00, 0x00],
  [0x00, 0x56, 0x36, 0x00, 0x00],
  [0x00, 0x08, 0x14, 0x22, 0x41],
  [0x14, 0x14, 0x14, 0x14, 0x14],
  [0x41, 0x22, 0x14, 0x08, 0x00],
  [0x02, 0x01, 0x51, 0x09, 0x06],
  [0x32, 0x49, 0x79, 0x41, 0x3E],
  [0x7E, 0x11, 0x11, 0x11, 0x7E],
  [0x7F, 0x49, 0x49, 0x49, 0x36],
  [0x3E, 0x41, 0x41, 0x41, 0x22],
  [0x7F, 0x41, 0x41, 0x22, 0x1C],
  [0x7F, 0x49, 0x49, 0x49, 0x41],
  [0x7F, 0x09, 0x09, 0x01, 0x01],
  [0x3E, 0x41, 0x41, 0x51, 0x32],
  [0x7F, 0x08, 0x08, 0x08, 0x7F],
  [0x00, 0x41, 0x7F, 0x41, 0x00],
  [0x20, 0x40, 0x41, 0x3F, 0x01],
  [0x7F, 0x08, 0x14, 0x22, 0x41],
  [0x7F, 0x40, 0x40, 0x40, 0x40],
  [0x7F, 0x02, 0x04, 0x02, 0x7F],
  [0x7F, 0x04, 0x08, 0x10, 0x7F],
  [0x3E, 0x41, 0x41, 0x41, 0x3E],
  [0x7F, 0x09, 0x09, 0x09, 0x06],
  [0x3E, 0x41, 0x51, 0x21, 0x5E],
  [0x7F, 0x09, 0x19, 0x29, 0x46],
  [0x46, 0x49, 0x49, 0x49, 0x31],
  [0x01, 0x01, 0x7F, 0x01, 0x01],
  [0x3F, 0x40, 0x40, 0x40, 0x3F],
  [0x1F, 0x20, 0x40, 0x20, 0x1F],
  [0x7F, 0x20, 0x18, 0x20, 0x7F],
  [0x63, 0x14, 0x08, 0x14, 0x63],
  [0x03, 0x04, 0x78, 0x04, 0x03],
  [0x61, 0x51, 0x49, 0x45, 0x43],
  [0x00, 0x00, 0x7F, 0x41, 0x41],
  [0x02, 0x04, 0x08, 0x10, 0x20],
  [0x41, 0x41, 0x7F, 0x00, 0x00],
  [0x04, 0x02, 0x01, 0x02, 0x04],
  [0x40, 0x40, 0x40, 0x40, 0x40],
  [0x00, 0x01, 0x02, 0x04, 0x00],
  [0x20, 0x54, 0x54, 0x54, 0x78],
  [0x7F, 0x48, 0x44, 0x44, 0x38],
  [0x38, 0x44, 0x44, 0x44, 0x20],
  [0x38, 0x44, 0x44, 0x48, 0x7F],
  [0x38, 0x54, 0x54, 0x54, 0x18],
  [0x08, 0x7E, 0x09, 0x01, 0x02],
  [0x08, 0x14, 0x54, 0x54, 0x3C],
  [0x7F, 0x08, 0x04, 0x04, 0x78],
  [0x00, 0x44, 0x7D, 0x40, 0x00],
  [0x20, 0x40, 0x44, 0x3D, 0x00],
  [0x00, 0x7F, 0x10, 0x28, 0x44],
  [0x00, 0x41, 0x7F, 0x40, 0x00],
  [0x7C, 0x04, 0x18, 0x04, 0x78],
  [0x7C, 0x08, 0x04, 0x04, 0x78],
  [0x38, 0x44, 0x44, 0x44, 0x38],
  [0x7C, 0x14, 0x14, 0x14, 0x08],
  [0x08, 0x14, 0x14, 0x18, 0x7C],
  [0x7C, 0x08, 0x04, 0x04, 0x08],
  [0x48, 0x54, 0x54, 0x54, 0x20],
  [0x04, 0x3F, 0x44, 0x40, 0x20],
  [0x3C, 0x40, 0x40, 0x20, 0x7C],
  [0x1C, 0x20, 0x40, 0x20, 0x1C],
  [0x3C, 0x40, 0x30, 0x40, 0x3C],
  [0x44, 0x28, 0x10, 0x28, 0x44],
  [0x0C, 0x50, 0x50, 0x50, 0x3C],
  [0x44, 0x64, 0x54, 0x4C, 0x44],
  [0x00, 0x08, 0x36, 0x41, 0x00],
  [0x00, 0x00, 0x7F, 0x00, 0x00],
  [0x00, 0x41, 0x36, 0x08, 0x00],
  [0x08, 0x04, 0x08, 0x10, 0x08]
]

/-- AsciiFont: a character and its 35-sample bitmap (row-major, data[y*5+x]),
each sample 0 or 255. -/
structure AsciiFont where
  ch : Char
  data : List Nat
deriving Repr, DecidableEq

/-- Default AsciiFont: the space character with the all-zero bitmap. -/
def AsciiFont.default : AsciiFont := { ch := Char.ofNat 32, data := List.replicate 35 0 }

/-- The bitmap expansion loop of AsciiFont::from: for y in 0..7, x in 0..5,
data[y*5 + x] = 255 if bit y of column byte x is set, else 0. -/
def fontData (cols : List Nat) : List Nat :=
  (List.range 7).flatMap (fun y => (List.range 5).map (fun x =>
    if (cols.getD x 0).testBit y then 255 else 0))

/-- AsciiFont::from.  A non-ASCII character returns the default font.  For an
ASCII character the code indexes ASCII_FONT[ch as usize - 32]: a code below 32
underflows the usize subtraction and a code of 127 indexes past the 95-entry
table, so both panic (Except.error ()). -/
def AsciiFont.fromChar (ch : Char) : Except Unit AsciiFont :=
  if 128 <= ch.toNat then .ok AsciiFont.default
  else if ch.toNat < 32 then .error ()
  else match ASCII_FONT[ch.toNat - 32]? with
    | some cols => .ok { ch := ch, data := fontData cols }
    | none => .error ()

/-- AsciiFont::quadrance: the sum over zipped samples of the squared
difference.  The Rust code sums (ai - bi)^2 in f64; every term and every
partial sum is an integer below 35 * 255^2 < 2^53, where f64 arithmetic is
exact, so Int models it exactly. -/
def AsciiFont.quadrance (f1 f2 : AsciiFont) : Int :=
  ((f1.data.zip f2.data).map (fun p => ((p.1 : Int) - (p.2 : Int)) ^ 2)).sum

/-- The f64::MAX sentinel of minimize_quadrance, an exactly representable
integer, far above every attainable quadrance. -/
def f64MAX : Int := (2 ^ 53 - 1) * 2 ^ 971

/-- minimize_quadrance: fold over the candidate set keeping the strictly
smaller quadrance, starting from (f64::MAX, space). -/
def minimize_quadrance (font1 : AsciiFont) (font_set : List AsciiFont) : Char :=
  (font_set.foldl (fun acc font =>
      let q := AsciiFont.quadrance font1 font
      if q < acc.1 then (q, font.ch) else acc)
    (f64MAX, Char.ofNat 32)).2

/-- The 95-entry glyph catalog: AsciiFont::from of every printable ASCII
character 32..=126 (each returns ok). -/
def catalogFonts : List AsciiFont :=
  (List.range 95).filterMap (fun i => (AsciiFont.fromChar (Char.ofNat (i + 32))).toOption)

/-! ## Quadrance lemmas -/

theorem quadrance_self_data (l : List Nat) :
    ((l.zip l).map (fun p => ((p.1 : Int) - (p.2 : Int)) ^ 2)).sum = 0 := by
  induction l with
  | nil => simp
  | cons a tl ih => simp [ih]

theorem quadrance_comm_data (l1 l2 : List Nat) :
    ((l1.zip l2).map (fun p => ((p.1 : Int) - (p.2 : Int)) ^ 2)).sum
      = ((l2.zip l1).map (fun p => ((p.1 : Int) - (p.2 : Int)) ^ 2)).sum := by
  induction l1 generalizing l2 with
  | nil => cases l2 <;> simp
  | cons a tl ih =>
    cases l2 with
    | nil => simp
    | cons b tl2 =>
      simp only [List.zip_cons_cons, List.map_cons, List.sum_cons, ih tl2]
      ring

theorem quadrance_nonneg_data (l : List (Nat × Nat)) :
    0 ≤ (l.map (fun p => ((p.1 : Int) - (p.2 : Int)) ^ 2)).sum := by
  apply List.sum_nonneg
  intro x hx
  obtain ⟨p, _, rfl⟩ := List.mem_map.mp hx
  exact sq_nonneg _

theorem quadrance_pos_data (l1 l2 : List Nat) (hlen : l1.length = l2.length)
    (hne : l1 ≠ l2) :
    0 < ((l1.zip l2).map (fun p => ((p.1 : Int) - (p.2 : Int)) ^ 2)).sum := by
  induction l1 generalizing l2 with
  | nil =>
    cases l2 with
    | nil => exact absurd rfl hne
    | cons b tl2 => simp at hlen
  | cons a tl ih =>
    cases l2 with
    | nil => simp at hlen
    | cons b tl2 =>
      simp only [List.zip_cons_cons, List.map_cons, List.sum_cons]
      by_cases hab : a = b
      · subst hab
        have htl : tl ≠ tl2 := fun hcontra => hne (by rw [hcontra])
        have hpos := ih tl2 (by simpa using hlen) htl
        have hzero : ((a : Int) - (a : Int)) ^ 2 = 0 := by ring
        rw [hzero, zero_add]
        exact hpos
      · have hterm : 0 < ((a : Int) - (b : Int)) ^ 2 := by
          apply pow_two_pos_of_ne_zero
          intro hcontra
          exact hab (by exact_mod_cast sub_eq_zero.mp hcontra)
        have hrest := quadrance_nonneg_data (tl.zip tl2)
        linarith

theorem quadrance_bound_data (l : List (Nat × Nat))
    (hv : ∀ p ∈ l, p.1 ≤ 255 ∧ p.2 ≤ 255) :
    (l.map (fun p => ((p.1 : Int) - (p.2 : Int)) ^ 2)).sum ≤ l.length * 255 ^ 2 := by
  induction l with
  | nil => simp
  | cons p tl ih =>
    simp only [List.map_cons, List.sum_cons, List.length_cons]
    have hp := hv p (List.mem_cons_self p tl)
    have hterm : ((p.1 : Int) - (p.2 : Int)) ^ 2 ≤ 255 ^ 2 := by
      have h1 : (p.1 : Int) ≤ 255 := by exact_mod_cast hp.1
      have h2 : (p.2 : Int) ≤ 255 := by exact_mod_cast hp.2
      have h3 : (0 : Int) ≤ (p.1 : Int) := Int.natCast_nonneg _
      have h4 : (0 : Int) ≤ (p.2 : Int) := Int.natCast_nonneg _
      exact sq_le_sq' (by linarith) (by linarith)
    have htl := ih (fun q hq => hv q (List.mem_cons_of_mem p hq))
    push_cast
    linarith

/-! ## Claim C5 -/

/-- C5 counterexample: newline (code 10) and DEL (code 127) are ASCII but not
printable.  The claim says AsciiFont::from maps them to the all-zero space
glyph; the code panics on both (usize underflow of ch - 32, and index 95 into
the 95-entry table). -/
theorem fromChar_control_counterexample :
    AsciiFont.fromChar (Char.ofNat 10) = .error ()
    ∧ AsciiFont.fromChar (Char.ofNat 127) = .error () :=
  ⟨rfl, rfl⟩

/-- C5 (amended): AsciiFont::from returns the default space glyph for every
non-ASCII character and the catalog glyph (a 35-sample bitmap of 0s and 255s)
for printable ASCII 32..=126, but it panics on ASCII control characters
(code below 32 or 127) instead of returning the space glyph. -/
theorem fromChar_spec (c : Char) :
    (128 ≤ c.toNat → AsciiFont.fromChar c = .ok AsciiFont.default)
    ∧ ((c.toNat < 32 ∨ c.toNat = 127) → AsciiFont.fromChar c = .error ())
    ∧ (32 ≤ c.toNat → c.toNat ≤ 126 →
        ∃ f, AsciiFont.fromChar c = .ok f ∧ f.ch = c ∧ f.data.length = 35
          ∧ ∀ v ∈ f.data, v = 0 ∨ v = 255) := by
  refine ⟨?_, ?_, ?_⟩
  · intro h
    rw [AsciiFont.fromChar, if_pos h]
  · rintro (h | h)
    · rw [AsciiFont.fromChar, if_neg (by omega), if_pos h]
    · rw [AsciiFont.fromChar, if_neg (by omega), if_neg (by omega)]
      have hnone : ASCII_FONT[c.toNat - 32]? = none := by
        apply List.getElem?_eq_none
        rw [h]
        decide
      rw [hnone]
  · intro h1 h2
    have hlt : c.toNat - 32 < ASCII_FONT.length := by
      have h95 : ASCII_FONT.length = 95 := by decide
      omega
    rw [AsciiFont.fromChar, if_neg (by omega), if_neg (by omega),
      List.getElem?_eq_getElem hlt]
    refine ⟨_, rfl, rfl, ?_, ?_⟩
    · rw [fontData, flatMap_length_uniform _ _ 5 (fun a _ => by simp)]
      simp
    · intro v hv
      rw [fontData] at hv
      simp only [List.mem_flatMap, List.mem_map, List.mem_range] at hv
      obtain ⟨y, _, x, _, rfl⟩ := hv
      by_cases hbit : (ASCII_FONT[c.toNat - 32].getD x 0).testBit y
      · right
        rw [if_pos hbit]
      · left
        rw [if_neg hbit]

/-- C5 witness: the amended statement evaluated on the printable character
with code 65. -/
theorem fromChar_spec_witness :
    32 ≤ (Char.ofNat 65).toNat ∧ (Char.ofNat 65).toNat ≤ 126
    ∧ ∃ f, AsciiFont.fromChar (Char.ofNat 65) = .ok f ∧ f.ch = Char.ofNat 65
        ∧ f.data.length = 35 ∧ ∀ v ∈ f.data, v = 0 ∨ v = 255 :=
  ⟨by decide, by decide, (fromChar_spec (Char.ofNat 65)).2.2 (by decide) (by decide)⟩

/-! ## Claim C10 -/

set_option maxRecDepth 10000 in
/-- C10: the quadrance metric satisfies Quadrance(A,A) = 0 and symmetry for
all fonts; over the 95-entry catalog any two distinct glyphs have strictly
positive quadrance; and for 35-sample fonts with byte-valued samples the
quadrance never exceeds 35 * 255^2. -/
theorem quadrance_props :
    (∀ A : AsciiFont, AsciiFont.quadrance A A = 0)
    ∧ (∀ A B : AsciiFont, AsciiFont.quadrance A B = AsciiFont.quadrance B A)
    ∧ catalogFonts.length = 95
    ∧ (∀ A ∈ catalogFonts, ∀ B ∈ catalogFonts, A ≠ B → 0 < AsciiFont.quadrance A B)
    ∧ (∀ A B : AsciiFont, A.data.length = 35 → B.data.length = 35 →
        (∀ v ∈ A.data, v ≤ 255) → (∀ v ∈ B.data, v ≤ 255) →
        AsciiFont.quadrance A B ≤ 35 * 255 ^ 2) := by
  refine ⟨fun A => quadrance_self_data A.data,
    fun A B => quadrance_comm_data A.data B.data, by decide, ?_, ?_⟩
  · have hpw : catalogFonts.Pairwise (fun A B => A.data ≠ B.data) := by decide
    have hlen : ∀ A ∈ catalogFonts, A.data.length = 35 := by decide
    intro A hA B hB hne
    have hdata : A.data ≠ B.data :=
      hpw.forall (fun _ _ hxy => hxy.symm) hA hB hne
    exact quadrance_pos_data A.data B.data (by rw [hlen A hA, hlen B hB]) hdata
  · intro A B hA35 hB35 hAv hBv
    have hz : (A.data.zip B.data).length = 35 := by
      rw [List.length_zip, hA35, hB35]
      simp
    have hv : ∀ p ∈ A.data.zip B.data, p.1 ≤ 255 ∧ p.2 ≤ 255 := by
      rintro ⟨a, b⟩ hp
      have := List.of_mem_zip hp
      exact ⟨hAv a this.1, hBv b this.2⟩
    have hbound := quadrance_bound_data (A.data.zip B.data) hv
    rw [hz] at hbound
    rw [AsciiFont.quadrance]
    simpa using hbound

/-! ## ANSI styles (the ansi_term crate surface the code uses) -/

/-- An ansi_term color: a 24-bit RGB triple or a 256-palette index. -/
inductive AnsiColor
  | rgb (r g b : Nat)
  | fixed (idx : Nat)
deriving Repr, DecidableEq

/-- An ansi_term Style: optional foreground and background colors plus the
bold, blink and underline bits.  Style::new and Style::default leave every
field unset. -/
structure Style where
  fg : Option AnsiColor := none
  bg : Option AnsiColor := none
  is_bold : Bool := false
  is_blink : Bool := false
  is_underline : Bool := false
deriving Repr, DecidableEq

/-- image::imageops::FilterType, stored in the config and passed to the
external resizer. -/
inductive FilterType
  | nearest | triangle | catmullRom | gaussian | lanczos3
deriving Repr, DecidableEq

/-- The generic AnsiImage configuration struct (ansi.rs).  The f32 contrast
field is stored, never computed with, and is modelled as Rat. -/
structure AnsiImage (T S : Type) where
  invert : Bool
  bold : Bool
  blink : Bool
  underline : Bool
  has_foreground : Bool
  has_background : Bool
  has_threshold : Bool
  foreground : Nat × Nat × Nat
  background : Nat × Nat × Nat
  threshold : Nat
  contrast : Rat
  brighten : Int
  filter : FilterType
  size : Nat × Nat
  scale : Nat × Nat
  color : S
  mode : T
deriving Repr, DecidableEq

/-- Ansinator::new with the given default mode and color. -/
def AnsiImage.new (T S : Type) (t : T) (s : S) : AnsiImage T S :=
  { invert := false, bold := false, blink := false, underline := false
  , has_foreground := false, has_background := false, has_threshold := false
  , foreground := (255, 255, 255), background := (0, 0, 0), threshold := 127
  , contrast := 0, brighten := 0, filter := .nearest
  , size := (0, 0), scale := (1, 1), color := s, mode := t }

/-- Ansinator::set_foreground (trait version): records the triple and the
has_foreground flag. -/
def AnsiImage.set_foreground (T S : Type) (s : AnsiImage T S) (f : Nat × Nat × Nat) :
    AnsiImage T S :=
  { s with has_foreground := true, foreground := f }

/-- Ansinator::set_background (trait version): records the triple and the
has_background flag. -/
def AnsiImage.set_background (T S : Type) (s : AnsiImage T S) (b : Nat × Nat × Nat) :
    AnsiImage T S :=
  { s with has_background := true, background := b }

/-- Modelled from the spec: the ansinator_terminal_colors crate is not under
src (only its callers are).  Palette mode computes the index of the closest
entry of a fixed 256-entry terminal palette under Euclidean RGB distance,
ties resolved by the first-found minimum of a linear scan in index order.
The fixed table is the standard terminal palette: 16 base colors, a 6x6x6
color cube, and 24 grays.  No claim depends on its entries. -/
def cubeLevel (v : Nat) : Nat := if v = 0 then 0 else 55 + 40 * v

/-- Modelled from the spec: the fixed 256-entry terminal palette. -/
def PALETTE256 : List (Nat × Nat × Nat) :=
  [ (0, 0, 0), (128, 0, 0), (0, 128, 0), (128, 128, 0)
  , (0, 0, 128), (128, 0, 128), (0, 128, 128), (192, 192, 192)
  , (128, 128, 128), (255, 0, 0), (0, 255, 0), (255, 255, 0)
  , (0, 0, 255), (255, 0, 255), (0, 255, 255), (255, 255, 255) ]
  ++ (List.range 216).map (fun i =>
        (cubeLevel (i / 36), cubeLevel (i / 6 % 6), cubeLevel (i % 6)))
  ++ (List.range 24).map (fun k => (8 + 10 * k, 8 + 10 * k, 8 + 10 * k))

/-- Squared Euclidean distance between two RGB triples. -/
def colorDist2 (c1 c2 : Nat × Nat × Nat) : Int :=
  ((c1.1 : Int) - (c2.1 : Int)) ^ 2 + ((c1.2.1 : Int) - (c2.2.1 : Int)) ^ 2
    + ((c1.2.2 : Int) - (c2.2.2 : Int)) ^ 2

/-- Modelled from the spec: TermColor::from(r,g,b).index, the first-found
nearest palette index. -/
def termColorIndex (r g b : Nat) : Nat :=
  (PALETTE256.enum.foldl (fun acc p =>
      if colorDist2 (r, g, b) p.2 < acc.1 then (colorDist2 (r, g, b) p.2, p.1) else acc)
    (f64MAX, 0)).2

/-! ## Ascii rendering (core/ansinator_ansi_image/src/ascii.rs) -/

/-- Ascii coloring method. -/
inductive AsciiColor
  | truecolor | terminalcolor | fixed
deriving Repr, DecidableEq

/-- Ascii conversion method. -/
inductive AsciiMode
  | gradient | patternQuadrance | patternSsim
deriving Repr, DecidableEq

/-- AnsiAscii = AnsiImage of AsciiMode, AsciiColor. -/
abbrev AnsiAscii := AnsiImage AsciiMode AsciiColor

/-- AnsiAscii::new: trait new with the default mode (PatternQuadrance) and
color (Fixed). -/
def AnsiAscii.new : AnsiAscii := AnsiImage.new _ _ .patternQuadrance .fixed

/-- AnsiAscii::true_color. -/
def AnsiAscii.true_color (s : AnsiAscii) : AnsiAscii := { s with color := .truecolor }

/-- AnsiAscii::gradient: gradient mode with scale (1,1). -/
def AnsiAscii.gradient (s : AnsiAscii) : AnsiAscii :=
  { s with mode := .gradient, scale := (1, 1) }

/-- AnsiAscii::get_color: true color passes the triple through, terminal
color quantizes it, fixed mode emits the user triples that were set (the
background-only arm pairs the user background with a black foreground). -/
def AnsiAscii.get_color (s : AnsiAscii) (r g b : Nat) : Style :=
  match s.color with
  | .truecolor => { fg := some (.rgb r g b) }
  | .terminalcolor => { fg := some (.fixed (termColorIndex r g b)) }
  | .fixed =>
    match s.has_foreground, s.has_background with
    | false, false => {}
    | false, true =>
      { fg := some (.rgb 0 0 0)
      , bg := some (.rgb s.background.1 s.background.2.1 s.background.2.2) }
    | true, false =>
      { fg := some (.rgb s.foreground.1 s.foreground.2.1 s.foreground.2.2) }
    | true, true =>
      { fg := some (.rgb s.foreground.1 s.foreground.2.1 s.foreground.2.2)
      , bg := some (.rgb s.background.1 s.background.2.1 s.background.2.2) }

/-- AnsiAscii::get_style: get_color plus the bold, blink and underline
flags. -/
def AnsiAscii.get_style (s : AnsiAscii) (r g b : Nat) : Style :=
  let st := AnsiAscii.get_color s r g b
  let st := if s.bold then { st with is_bold := true } else st
  let st := if s.blink then { st with is_blink := true } else st
  if s.underline then { st with is_underline := true } else st

/-- luma_mapping: index = p * (len - 1) / 255 into the character vector.  On
an empty vector the usize subtraction len - 1 underflows (release builds wrap
and then index out of bounds), so the call panics: Except.error (). -/
def luma_mapping (luma : Img Nat) (x y : Nat) (char_set : List Char) : Except Unit Char :=
  let p := luma.pix x y
  if char_set.length = 0 then .error ()
  else match char_set[p * (char_set.length - 1) / 255]? with
    | some c => .ok c
    | none => .error ()

/-- AnsiAscii::ascii_gradient: the style is computed once, before the loops,
as get_style(0,0,0) (the source comment announces later modification, but the
loop body never recomputes it); each cell is style.paint of the mapped
character, and each row ends with an unstyled newline cell. -/
def ascii_gradient (s : AnsiAscii) (rgb : Img (Nat × Nat × Nat)) (luma : Img Nat)
    (char_set : List Char) : Except Unit (List (Style × String)) := do
  let style := AnsiAscii.get_style s 0 0 0
  let style_normal : Style := {}
  let rows ← (List.range rgb.height).mapM (fun y => do
    let cells ← (List.range rgb.width).mapM (fun x => do
      let ch ← luma_mapping luma x y char_set
      pure (style, String.mk [ch]))
    pure (cells ++ [(style_normal, "\n")]))
  pure rows.flatten

/-! ## Claim C3 -/

/-- C3: ascii_gradient with the true-color policy does not pass the sampled
RGB triple to the cell style: converting a 1 by 1 all-white image in gradient
true-color mode emits a cell styled with the foreground RGB(0,0,0) computed
before the loop, not the sampled RGB(255,255,255). -/
theorem ascii_gradient_truecolor_bug :
    ascii_gradient (AnsiAscii.true_color (AnsiAscii.gradient AnsiAscii.new))
      (Img.mk 1 1 (fun _ _ => (255, 255, 255)))
      (Img.mk 1 1 (fun _ _ => 255)) [Char.ofNat 65, Char.ofNat 66]
      = .ok [({ fg := some (.rgb 0 0 0) }, String.mk [Char.ofNat 66]), ({}, "\n")]
    ∧ AnsiColor.rgb 0 0 0 ≠ AnsiColor.rgb 255 255 255 :=
  ⟨rfl, by decide⟩

/-! ## Claim C4 -/

/-- C4 counterexample: gradient-mode luma mapping on an empty character set
panics (usize underflow / out-of-bounds index) instead of falling back. -/
theorem luma_mapping_empty_counterexample :
    luma_mapping (Img.mk 1 1 (fun _ _ => 255)) 0 0 [] = .error () :=
  rfl

/-- C4 (amended): pattern-mode best-match search over the empty candidate set
returns the space character without failing, but gradient-mode luma mapping
panics on an empty character set; on a non-empty set it returns a member of
the set without failing. -/
theorem empty_charset_spec :
    (∀ font1 : AsciiFont, minimize_quadrance font1 [] = Char.ofNat 32)
    ∧ (∀ (luma : Img Nat) (x y : Nat), luma_mapping luma x y [] = .error ())
    ∧ (∀ (luma : Img Nat) (x y : Nat) (cs : List Char),
        luma.pix x y ≤ 255 → cs ≠ [] →
        ∃ c, luma_mapping luma x y cs = .ok c ∧ c ∈ cs) := by
  refine ⟨fun _ => rfl, fun _ _ _ => rfl, ?_⟩
  intro luma x y cs hp hcs
  have hlen : cs.length ≠ 0 := fun hcontra => hcs (List.eq_nil_of_length_eq_zero hcontra)
  have hidx : luma.pix x y * (cs.length - 1) / 255 < cs.length := by
    have h1 : luma.pix x y * (cs.length - 1) ≤ 255 * (cs.length - 1) :=
      Nat.mul_le_mul_right _ hp
    have h2 : luma.pix x y * (cs.length - 1) / 255 ≤ 255 * (cs.length - 1) / 255 :=
      Nat.div_le_div_right h1
    have h3 : 255 * (cs.length - 1) / 255 = cs.length - 1 :=
      Nat.mul_div_cancel_left _ (by omega)
    omega
  rw [luma_mapping]
  simp only [if_neg hlen, List.getElem?_eq_getElem hidx]
  exact ⟨_, rfl, List.getElem_mem hidx⟩

/-- C4 witness: the non-empty gradient branch evaluated on a 1 by 1 image of
luma 100 and a one-character set. -/
theorem empty_charset_spec_witness :
    ∃ c, luma_mapping (Img.mk 1 1 (fun _ _ => 100)) 0 0 [Char.ofNat 88] = .ok c
      ∧ c ∈ [Char.ofNat 88] :=
  empty_charset_spec.2.2 (Img.mk 1 1 (fun _ _ => 100)) 0 0 [Char.ofNat 88]
    (by decide) (by decide)

/-! ## Braile rendering (core/ansinator_ansi_image/src/braile.rs) -/

/-- Braile coloring method (Fixed only). -/
inductive BraileColor
  | fixed
deriving Repr, DecidableEq

/-- Braile conversion method. -/
inductive BraileMode
  | manualThreshold | otsuThreshold
deriving Repr, DecidableEq

/-- AnsiBraile = AnsiImage of BraileMode, BraileColor. -/
abbrev AnsiBraile := AnsiImage BraileMode BraileColor

/-- AnsiBraile::new: trait new with defaults OtsuThreshold and Fixed. -/
def AnsiBraile.new : AnsiBraile := AnsiImage.new _ _ .otsuThreshold .fixed

/-- AnsiBraile::get_color.  The function head binds (r,g,b) to
self.foreground and (br,bg,bb) to self.background; the background-only arm
then applies .on(Color::RGB(r,g,b)), i.e. it emits the foreground field as
the ANSI background color (the background field is never read there). -/
def AnsiBraile.get_color (s : AnsiBraile) : Style :=
  match s.color with
  | .fixed =>
    match s.has_foreground, s.has_background with
    | false, false => {}
    | false, true =>
      { fg := some (.rgb 0 0 0)
      , bg := some (.rgb s.foreground.1 s.foreground.2.1 s.foreground.2.2) }
    | true, false =>
      { fg := some (.rgb s.foreground.1 s.foreground.2.1 s.foreground.2.2) }
    | true, true =>
      { fg := some (.rgb s.foreground.1 s.foreground.2.1 s.foreground.2.2)
      , bg := some (.rgb s.background.1 s.background.2.1 s.background.2.2) }

/-! ## Uniblock rendering (core/ansinator_ansi_image/src/uniblock.rs) -/

/-- Uniblock coloring method (Fixed only). -/
inductive UniblockColor
  | fixed
deriving Repr, DecidableEq

/-- Uniblock conversion method. -/
inductive UniblockMode
  | manualThreshold | otsuThreshold
deriving Repr, DecidableEq

/-- AnsiUniblock = AnsiImage of UniblockMode, UniblockColor. -/
abbrev AnsiUniblock := AnsiImage UniblockMode UniblockColor

/-- AnsiUniblock::new: trait new with defaults OtsuThreshold and Fixed. -/
def AnsiUniblock.new : AnsiUniblock := AnsiImage.new _ _ .otsuThreshold .fixed

/-- AnsiUniblock::get_color: like the braile one but the background-only arm
correctly applies .on(Color::RGB(br,bg,bb)) with the background field. -/
def AnsiUniblock.get_color (s : AnsiUniblock) : Style :=
  match s.color with
  | .fixed =>
    match s.has_foreground, s.has_background with
    | false, false => {}
    | false, true =>
      { fg := some (.rgb 0 0 0)
      , bg := some (.rgb s.background.1 s.background.2.1 s.background.2.2) }
    | true, false =>
      { fg := some (.rgb s.foreground.1 s.foreground.2.1 s.foreground.2.2) }
    | true, true =>
      { fg := some (.rgb s.foreground.1 s.foreground.2.1 s.foreground.2.2)
      , bg := some (.rgb s.background.1 s.background.2.1 s.background.2.2) }

/-! ## Claim C7 -/

/-- C7: in fixed-color mode with only a background set, AnsiBraile::get_color
emits the (unset, default white) foreground field as the ANSI background
instead of the user triple (50,255,155); the ascii and uniblock families and
the foreground-only and neither-set braile arms behave as claimed. -/
theorem braile_fixed_background_bug :
    AnsiBraile.get_color (AnsiImage.set_background _ _ AnsiBraile.new (50, 255, 155))
      = { fg := some (.rgb 0 0 0), bg := some (.rgb 255 255 255) }
    ∧ AnsiColor.rgb 255 255 255 ≠ AnsiColor.rgb 50 255 155
    ∧ AnsiUniblock.get_color (AnsiImage.set_background _ _ AnsiUniblock.new (50, 255, 155))
      = { fg := some (.rgb 0 0 0), bg := some (.rgb 50 255 155) }
    ∧ AnsiAscii.get_color (AnsiImage.set_background _ _ AnsiAscii.new (50, 255, 155)) 7 8 9
      = { fg := some (.rgb 0 0 0), bg := some (.rgb 50 255 155) }
    ∧ AnsiBraile.get_color (AnsiImage.set_foreground _ _ AnsiBraile.new (10, 20, 30))
      = { fg := some (.rgb 10 20 30) }
    ∧ AnsiBraile.get_color AnsiBraile.new = {} :=
  ⟨rfl, by decide, rfl, rfl, rfl, rfl⟩

/-! ## Binarization threshold (src/src/utils/threshold.rs) -/

/-- A grayscale image buffer (image::GrayImage): dimensions and the flat
pixel list. -/
structure GrayBuf where
  width : Nat
  height : Nat
  data : List Nat
deriving Repr, DecidableEq

/-- get_histogram: bin v holds the number of pixels of value v (every pixel
is a byte, so the 256 increments cover all pixels). -/
def get_histogram (img : GrayBuf) : List Nat :=
  (List.range 256).map (fun v => img.data.count v)

/-- Loop state of get_otsu_value: the two running accumulators, the running
maximum variance and the best threshold so far.  The f64 values hold only
rationals here (integers and two quotients of integers), modelled over
Rat. -/
structure OtsuState where
  bg_sum : Rat
  bg_weight : Rat
  max_variance : Rat
  best_threshold : Nat
deriving Repr

/-- total_weight of get_otsu_value: width * height as f64. -/
def totalWeight (img : GrayBuf) : Rat := (img.width : Rat) * (img.height : Rat)

/-- Partial histogram weight: the number of pixels of value below t (the
loop's bg_weight before iteration t). -/
def bgWeightN (img : GrayBuf) (t : Nat) : Nat :=
  ((List.range t).map (fun v => img.data.count v)).sum

/-- Partial histogram sum: the sum of v * count v over v below t (the loop's
bg_sum before iteration t). -/
def bgSumN (img : GrayBuf) (t : Nat) : Nat :=
  ((List.range t).map (fun v => v * img.data.count v)).sum

/-- sum_intensity of get_otsu_value, as a natural number. -/
def sumIntensityN (img : GrayBuf) : Nat := bgSumN img 256

/-- The guard get_otsu_value applies before computing a variance at
candidate t: both classes must be non-empty. -/
def otsuValid (img : GrayBuf) (t : Nat) : Prop :=
  0 < totalWeight img - (bgWeightN img t : Rat) ∧ 0 < (bgWeightN img t : Rat)

/-- The inter-class variance get_otsu_value computes at candidate t:
(bg_weight * fg_weight * (bg_mean - fg_mean)) squared. -/
def otsuVariance (img : GrayBuf) (t : Nat) : Rat :=
  ((bgWeightN img t : Rat) * (totalWeight img - (bgWeightN img t : Rat)) *
    ((bgSumN img t : Rat) / (bgWeightN img t : Rat) -
      ((sumIntensityN img : Rat) - (bgSumN img t : Rat)) /
        (totalWeight img - (bgWeightN img t : Rat)))) ^ 2

/-- One iteration of the get_otsu_value scan at histogram entry (t, c):
when both class weights are positive, compute the variance and take over the
running best on a non-strict comparison (val >= max_variance); afterwards
push (t, c) into the background accumulators. -/
def otsuStep (total_weight sum_intensity : Rat) (st : OtsuState) (t c : Nat) : OtsuState :=
  let fg_weight := total_weight - st.bg_weight
  let st' :=
    if 0 < fg_weight ∧ 0 < st.bg_weight then
      let fg_mean := (sum_intensity - st.bg_sum) / fg_weight
      let val := (st.bg_weight * fg_weight * (st.bg_sum / st.bg_weight - fg_mean)) ^ 2
      if st.max_variance ≤ val then
        { st with best_threshold := t, max_variance := val }
      else st
    else st
  { st' with bg_weight := st'.bg_weight + (c : Rat)
           , bg_sum := st'.bg_sum + ((t * c : Nat) : Rat) }

/-- get_otsu_value: scan the enumerated histogram with otsuStep from the
all-zero state and return the best threshold.  The f64 sum_intensity is the
exact integer sum of t * count t, modelled as a cast natural number. -/
def get_otsu_value (img : GrayBuf) : Nat :=
  let hist := get_histogram img
  let sum_intensity : Rat := (((hist.enum.map (fun tc => tc.1 * tc.2)).sum : Nat) : Rat)
  (hist.enum.foldl (fun st tc => otsuStep (totalWeight img) sum_intensity st tc.1 tc.2)
    { bg_sum := 0, bg_weight := 0, max_variance := 0, best_threshold := 0 }).best_threshold

/-- threshold: binarize with p > t to 255 else 0 (Threshold::threshold). -/
def thresholdBuf (img : GrayBuf) (t : Nat) : GrayBuf :=
  { img with data := img.data.map (fun p => if t < p then 255 else 0) }

theorem bgWeightN_succ (img : GrayBuf) (t : Nat) :
    bgWeightN img (t + 1) = bgWeightN img t + img.data.count t := by
  rw [bgWeightN, bgWeightN, List.range_succ, List.map_append, List.sum_append]
  simp

theorem bgSumN_succ (img : GrayBuf) (t : Nat) :
    bgSumN img (t + 1) = bgSumN img t + t * img.data.count t := by
  rw [bgSumN, bgSumN, List.range_succ, List.map_append, List.sum_append]
  simp

theorem sum_map_add (l : List Nat) (f g : Nat → Nat) :
    (l.map (fun v => f v + g v)).sum = (l.map f).sum + (l.map g).sum := by
  induction l with
  | nil => simp
  | cons a tl ih =>
    simp only [List.map_cons, List.sum_cons, ih]
    ring

theorem sum_indicator_range (t a : Nat) (ha : a < t) :
    ((List.range t).map (fun v => if a = v then 1 else 0)).sum = 1 := by
  induction t with
  | zero => omega
  | succ t ih =>
    rw [List.range_succ, List.map_append, List.sum_append]
    by_cases h : a = t
    · subst h
      have hz : ((List.range a).map (fun v => if a = v then (1 : Nat) else 0)).sum = 0 := by
        apply List.sum_eq_zero
        intro x hx
        obtain ⟨v, hv, rfl⟩ := List.mem_map.mp hx
        rw [if_neg]
        intro hcontra
        rw [← hcontra] at hv
        exact absurd (List.mem_range.mp hv) (lt_irrefl a)
      rw [hz]
      simp
    · rw [ih (by omega)]
      simp only [List.map_cons, List.map_nil, List.sum_cons, List.sum_nil]
      rw [if_neg h]
      omega

theorem count_sum_eq_length (l : List Nat) (t : Nat) (hl : ∀ p ∈ l, p < t) :
    ((List.range t).map (fun v => l.count v)).sum = l.length := by
  induction l with
  | nil => simp
  | cons a tl ih =>
    have hmap : (List.range t).map (fun v => (a :: tl).count v)
        = (List.range t).map (fun v => tl.count v + if a = v then 1 else 0) := by
      apply List.map_congr_left
      intro v _
      rw [List.count_cons]
      simp [beq_iff_eq]
    rw [hmap, sum_map_add, ih (fun p hp => hl p (List.mem_cons_of_mem a hp)),
      sum_indicator_range t a (hl a (List.mem_cons_self a tl))]
    simp

theorem hist_enum (img : GrayBuf) :
    (get_histogram img).enum = (List.range 256).map (fun t => (t, img.data.count t)) := by
  apply List.ext_getElem?
  intro n
  rw [List.getElem?_enum, get_histogram, List.getElem?_map, List.getElem?_map]
  by_cases hn : n < 256
  · rw [List.getElem?_range hn]
    rfl
  · rw [List.getElem?_eq_none (by simpa [List.length_range] using hn)]
    rfl

/-- The scan of get_otsu_value is the fold of otsuStep over the pairs
(t, count t) for t in 0..256. -/
theorem get_otsu_value_eq_fold (img : GrayBuf) :
    get_otsu_value img =
      (((List.range' 0 256).map (fun t => (t, img.data.count t))).foldl
        (fun st tc => otsuStep (totalWeight img) ((sumIntensityN img : Rat)) st tc.1 tc.2)
        { bg_sum := 0, bg_weight := 0, max_variance := 0, best_threshold := 0 }).best_threshold := by
  have hsum_nat : ((get_histogram img).enum.map (fun tc => tc.1 * tc.2)).sum
      = sumIntensityN img := by
    rw [hist_enum, List.map_map]
    rfl
  simp only [get_otsu_value]
  rw [hsum_nat, hist_enum, List.range_eq_range']

/-- The loop invariant of the get_otsu_value scan after the candidates below
t have been processed: the accumulators hold the partial sums, the running
maximum dominates every variance seen so far, and the best threshold is the
largest candidate attaining it (0,0 when no candidate was valid yet). -/
def OtsuInv (img : GrayBuf) (t : Nat) (st : OtsuState) : Prop :=
  st.bg_weight = (bgWeightN img t : Rat)
  ∧ st.bg_sum = (bgSumN img t : Rat)
  ∧ 0 ≤ st.max_variance
  ∧ (∀ u, u < t → otsuValid img u → otsuVariance img u ≤ st.max_variance)
  ∧ ((∀ u, u < t → ¬ otsuValid img u) → st.max_variance = 0 ∧ st.best_threshold = 0)
  ∧ ((∃ u, u < t ∧ otsuValid img u) →
      otsuValid img st.best_threshold ∧ st.best_threshold < t
        ∧ otsuVariance img st.best_threshold = st.max_variance
        ∧ ∀ u, u < t → otsuValid img u →
            otsuVariance img u = st.max_variance → u ≤ st.best_threshold)

theorem otsuStep_inv (img : GrayBuf) (t : Nat) (st : OtsuState) (hinv : OtsuInv img t st) :
    OtsuInv img (t + 1)
      (otsuStep (totalWeight img) ((sumIntensityN img : Rat)) st t (img.data.count t)) := by
  obtain ⟨hbw, hbs, hm0, hub, hnov, hex⟩ := hinv
  have hvar_nonneg : ∀ u, 0 ≤ otsuVariance img u := fun u => sq_nonneg _
  have hacc_w : st.bg_weight + ((img.data.count t : Nat) : Rat)
      = ((bgWeightN img (t + 1) : Nat) : Rat) := by
    rw [hbw, bgWeightN_succ]
    push_cast
    ring
  have hacc_s : st.bg_sum + ((t * img.data.count t : Nat) : Rat)
      = ((bgSumN img (t + 1) : Nat) : Rat) := by
    rw [hbs, bgSumN_succ]
    push_cast
    ring
  simp only [otsuStep]
  by_cases hcond : 0 < totalWeight img - st.bg_weight ∧ 0 < st.bg_weight
  · have hv : otsuValid img t := by
      rw [otsuValid, ← hbw]
      exact hcond
    rw [if_pos hcond]
    have hvaleq : (st.bg_weight * (totalWeight img - st.bg_weight) *
        (st.bg_sum / st.bg_weight -
          ((sumIntensityN img : Rat) - st.bg_sum) / (totalWeight img - st.bg_weight))) ^ 2
        = otsuVariance img t := by
      rw [hbw, hbs, otsuVariance]
    rw [hvaleq]
    by_cases hup : st.max_variance ≤ otsuVariance img t
    · rw [if_pos hup]
      refine ⟨hacc_w, hacc_s, hvar_nonneg t, ?_, ?_, ?_⟩
      · intro u hu huv
        by_cases hut : u = t
        · subst hut
          exact le_refl _
        · exact (hub u (by omega) huv).trans hup
      · intro hall
        exact absurd hv (hall t (Nat.lt_succ_self t))
      · intro _
        refine ⟨hv, Nat.lt_succ_self t, rfl, ?_⟩
        intro u hu _ _
        show u ≤ t
        omega
    · rw [if_neg hup]
      push_neg at hup
      have hprior : ∃ u, u < t ∧ otsuValid img u := by
        by_contra hno
        push_neg at hno
        have hz := hnov (fun u hu hval => hno u hu hval)
        rw [hz.1] at hup
        exact absurd hup (not_lt.mpr (hvar_nonneg t))
      obtain ⟨hvb, hbt, hveq, hmaxl⟩ := hex hprior
      refine ⟨hacc_w, hacc_s, hm0, ?_, ?_, ?_⟩
      · intro u hu huv
        by_cases hut : u = t
        · subst hut
          exact hup.le
        · exact hub u (by omega) huv
      · intro hall
        exact absurd hv (hall t (Nat.lt_succ_self t))
      · intro _
        refine ⟨hvb, Nat.lt_succ_of_lt hbt, hveq, ?_⟩
        intro u hu huv hueq
        by_cases hut : u = t
        · subst hut
          exact absurd hueq (ne_of_lt hup)
        · exact hmaxl u (by omega) huv hueq
  · have hnv : ¬ otsuValid img t := by
      rw [otsuValid, ← hbw]
      exact hcond
    rw [if_neg hcond]
    refine ⟨hacc_w, hacc_s, hm0, ?_, ?_, ?_⟩
    · intro u hu huv
      have hut : u ≠ t := fun hh => hnv (hh ▸ huv)
      exact hub u (by omega) huv
    · intro hall
      exact hnov (fun u hu hval => hall u (by omega) hval)
    · rintro ⟨u, hu, huv⟩
      have hut : u ≠ t := fun hh => hnv (hh ▸ huv)
      obtain ⟨hvb, hbt, hveq, hmaxl⟩ := hex ⟨u, by omega, huv⟩
      refine ⟨hvb, Nat.lt_succ_of_lt hbt, hveq, ?_⟩
      intro u' hu' hu'v hu'eq
      have hut' : u' ≠ t := fun hh => hnv (hh ▸ hu'v)
      exact hmaxl u' (by omega) hu'v hu'eq

theorem otsu_fold_inv (img : GrayBuf) (n : Nat) :
    ∀ (s : Nat) (st : OtsuState), OtsuInv img s st →
      OtsuInv img (s + n)
        (((List.range' s n).map (fun t => (t, img.data.count t))).foldl
          (fun st tc => otsuStep (totalWeight img) ((sumIntensityN img : Rat)) st tc.1 tc.2)
          st) := by
  induction n with
  | zero =>
    intro s st h
    simpa using h
  | succ n ih =>
    intro s st h
    rw [List.range'_succ, List.map_cons, List.foldl_cons]
    have hstep := otsuStep_inv img s st h
    have hrec := ih (s + 1) _ hstep
    have harith : s + (n + 1) = (s + 1) + n := by omega
    rw [harith]
    exact hrec

theorem otsuValid_lt_256 (img : GrayBuf) (hlen : img.data.length = img.width * img.height)
    (hb : ∀ p ∈ img.data, p ≤ 255) (t : Nat) (hv : otsuValid img t) : t < 256 := by
  by_contra h256
  push_neg at h256
  have htotal : bgWeightN img t = img.data.length :=
    count_sum_eq_length img.data t (fun p hp => by have := hb p hp; omega)
  have heq : (bgWeightN img t : Rat) = totalWeight img := by
    rw [htotal, hlen, totalWeight]
    push_cast
    ring
  have hcontra := hv.1
  rw [heq] at hcontra
  simp at hcontra

/-- C6 helper: the full argmax characterization of get_otsu_value, shared by
the claim theorem and the tie-break counterexample. -/
theorem otsu_argmax (img : GrayBuf) (hlen : img.data.length = img.width * img.height)
    (hb : ∀ p ∈ img.data, p ≤ 255) :
    ((∀ t, ¬ otsuValid img t) → get_otsu_value img = 0)
    ∧ (∀ t, otsuValid img t →
        otsuValid img (get_otsu_value img)
        ∧ otsuVariance img t ≤ otsuVariance img (get_otsu_value img)
        ∧ (otsuVariance img (get_otsu_value img) ≤ otsuVariance img t →
            t ≤ get_otsu_value img)) := by
  have hinit : OtsuInv img 0 { bg_sum := 0, bg_weight := 0, max_variance := 0, best_threshold := 0 } := by
    refine ⟨by simp [bgWeightN], by simp [bgSumN], le_refl 0, ?_, ?_, ?_⟩
    · intro u hu
      exact absurd hu (Nat.not_lt_zero u)
    · intro _
      exact ⟨rfl, rfl⟩
    · rintro ⟨u, hu, _⟩
      exact absurd hu (Nat.not_lt_zero u)
  have hfold := otsu_fold_inv img 256 0 _ hinit
  have hbest := get_otsu_value_eq_fold img
  obtain ⟨_, _, _, hub, hnov, hex⟩ := hfold
  constructor
  · intro hnone
    rw [hbest]
    exact (hnov (fun u _ => hnone u)).2
  · intro t hv
    have ht256 : t < 256 := otsuValid_lt_256 img hlen hb t hv
    have hexist : ∃ u, u < 0 + 256 ∧ otsuValid img u := ⟨t, by omega, hv⟩
    obtain ⟨hvb, _, hveq, hmaxl⟩ := hex hexist
    rw [hbest]
    refine ⟨hvb, ?_, ?_⟩
    · rw [hveq]
      exact hub t (by omega) hv
    · intro hge
      apply hmaxl t (by omega) hv
      have h1 := hub t (by omega) hv
      rw [hveq] at hge
      exact le_antisymm h1 hge

/-- The bimodal two-pixel image of the tie-break counterexample: one pixel
at 10 and one at 240. -/
def grayTwoPix : GrayBuf := { width := 2, height := 1, data := [10, 240] }

theorem gray2_count (v : Nat) :
    grayTwoPix.data.count v = (if v = 10 then 1 else 0) + (if v = 240 then 1 else 0) := by
  show List.count v [10, 240] = _
  rw [List.count_cons, List.count_cons, List.count_nil]
  by_cases h10 : v = 10 <;> by_cases h240 : v = 240 <;>
    simp [h10, h240, beq_iff_eq] <;> omega

theorem gray2_bgw (t : Nat) :
    bgWeightN grayTwoPix t = (if t ≤ 10 then 0 else if t ≤ 240 then 1 else 2) := by
  induction t with
  | zero => simp [bgWeightN]
  | succ t ih =>
    rw [bgWeightN_succ, ih, gray2_count]
    split_ifs <;> omega

theorem gray2_bgs (t : Nat) :
    bgSumN grayTwoPix t = (if t ≤ 10 then 0 else if t ≤ 240 then 10 else 250) := by
  induction t with
  | zero => simp [bgSumN]
  | succ t ih =>
    rw [bgSumN_succ, ih, gray2_count]
    split_ifs <;> omega

theorem gray2_total : totalWeight grayTwoPix = 2 := by
  rw [totalWeight]
  show ((2 : Nat) : Rat) * ((1 : Nat) : Rat) = 2
  norm_num

theorem gray2_valid (t : Nat) : otsuValid grayTwoPix t ↔ (11 ≤ t ∧ t ≤ 240) := by
  rw [otsuValid, gray2_total, gray2_bgw]
  split_ifs with h1 h2
  · constructor
    · rintro ⟨_, hcontra⟩
      norm_num at hcontra
    · intro hcontra
      omega
  · constructor
    · intro _
      omega
    · intro _
      norm_num
  · constructor
    · rintro ⟨hcontra, _⟩
      norm_num at hcontra
    · intro hcontra
      omega

theorem gray2_var (t : Nat) (h1 : 11 ≤ t) (h2 : t ≤ 240) :
    otsuVariance grayTwoPix t = otsuVariance grayTwoPix 240 := by
  have e1 : (if t ≤ 10 then (0 : Nat) else if t ≤ 240 then 1 else 2) = 1 := by
    rw [if_neg (by omega), if_pos (by omega)]
  have e2 : (if t ≤ 10 then (0 : Nat) else if t ≤ 240 then 10 else 250) = 10 := by
    rw [if_neg (by omega), if_pos (by omega)]
  rw [otsuVariance, otsuVariance, gray2_bgw, gray2_bgw, gray2_bgs, gray2_bgs, e1, e2]
  norm_num

/-! ## Claim C6 -/

/-- C6 (amended): the automatic Otsu search returns a threshold of maximal
computed inter-class variance (or 0 when no candidate splits the histogram
into two non-empty classes), but when several candidate thresholds attain
the same maximal variance it returns the latest (largest) such threshold,
because the non-strict comparison val >= max_variance replaces the running
best while the scan ascends. -/
theorem get_otsu_value_spec (img : GrayBuf)
    (hlen : img.data.length = img.width * img.height)
    (hb : ∀ p ∈ img.data, p ≤ 255) :
    ((∀ t, ¬ otsuValid img t) → get_otsu_value img = 0)
    ∧ (∀ t, otsuValid img t →
        otsuValid img (get_otsu_value img)
        ∧ otsuVariance img t ≤ otsuVariance img (get_otsu_value img)
        ∧ (otsuVariance img (get_otsu_value img) ≤ otsuVariance img t →
            t ≤ get_otsu_value img)) :=
  otsu_argmax img hlen hb

/-- C6 witness: the amended statement applied to the two-pixel bimodal image
at the candidate threshold 240. -/
theorem get_otsu_value_spec_witness :
    otsuValid grayTwoPix (get_otsu_value grayTwoPix)
    ∧ otsuVariance grayTwoPix 240 ≤ otsuVariance grayTwoPix (get_otsu_value grayTwoPix)
    ∧ (otsuVariance grayTwoPix (get_otsu_value grayTwoPix) ≤ otsuVariance grayTwoPix 240 →
        240 ≤ get_otsu_value grayTwoPix) :=
  (get_otsu_value_spec grayTwoPix (by decide) (by decide)).2 240
    ((gray2_valid 240).mpr (by omega))

/-- C6 counterexample: on the image with pixels 10 and 240 every threshold
in 11..240 is valid and attains the same (maximal) variance; the claim says
the earliest such threshold (11) is returned, but the code returns 240. -/
theorem otsu_tie_counterexample :
    otsuValid grayTwoPix 11
    ∧ otsuValid grayTwoPix (get_otsu_value grayTwoPix)
    ∧ otsuVariance grayTwoPix 11 = otsuVariance grayTwoPix (get_otsu_value grayTwoPix)
    ∧ get_otsu_value grayTwoPix = 240 := by
  have h240 : otsuValid grayTwoPix 240 := (gray2_valid 240).mpr (by omega)
  have h11 : otsuValid grayTwoPix 11 := (gray2_valid 11).mpr (by omega)
  have hmain := otsu_argmax grayTwoPix (by decide) (by decide)
  obtain ⟨hvb, hle240, hmax⟩ := hmain.2 240 h240
  have hbb := (gray2_valid (get_otsu_value grayTwoPix)).mp hvb
  have hvarb : otsuVariance grayTwoPix (get_otsu_value grayTwoPix)
      = otsuVariance grayTwoPix 240 := gray2_var _ hbb.1 hbb.2
  have h240le : 240 ≤ get_otsu_value grayTwoPix := hmax (le_of_eq hvarb)
  have hbest240 : get_otsu_value grayTwoPix = 240 := by omega
  refine ⟨h11, hvb, ?_, hbest240⟩
  rw [hvarb]
  exact gray2_var 11 (by omega) (by omega)

/-! ## Braille and sextant character encoding -/

/-- std::char::from_u32 followed by unwrap: ok on every non-surrogate scalar
value, panic otherwise. -/
def char_from_u32 (n : Nat) : Except Unit Char :=
  if n < 0xD800 ∨ (0xDFFF < n ∧ n < 0x110000) then .ok (Char.ofNat n) else .error ()

/-- get_braile: base codepoint 0x2800 plus the offset. -/
def get_braile (offset : Nat) : Except Unit Char :=
  char_from_u32 (offset + 0x2800)

/-- braile::window_analysis: reads the 2 by 4 window at (x,y); bit k of the
count is pixel/255 of the dot in the documented numbering (column-major, the
bottom row contributing bits 6 and 7); value << k is value * 2^k.  The u8 sum
never wraps: each pixel/255 is at most 1 for byte pixels, so the count is at
most 255. -/
def braile_window_analysis (luma : Img Nat) (x y : Nat) : Except Unit Char :=
  let count :=
    (luma.pix x y / 255) * 2 ^ 0 +
    (luma.pix x (y + 1) / 255) * 2 ^ 1 +
    (luma.pix x (y + 2) / 255) * 2 ^ 2 +
    (luma.pix (x + 1) y / 255) * 2 ^ 3 +
    (luma.pix (x + 1) (y + 1) / 255) * 2 ^ 4 +
    (luma.pix (x + 1) (y + 2) / 255) * 2 ^ 5 +
    (luma.pix x (y + 3) / 255) * 2 ^ 6 +
    (luma.pix (x + 1) (y + 3) / 255) * 2 ^ 7
  get_braile count

/-- get_sextant: the table lookup with the four reserved offsets. -/
def get_sextant (offset : Nat) : Except Unit Char :=
  if offset = 0 then .ok (Char.ofNat 32)
  else if offset < 21 then char_from_u32 (offset - 1 + 0x1FB00)
  else if offset = 21 then .ok (Char.ofNat 0x258C)
  else if 21 < offset ∧ offset < 42 then char_from_u32 (offset - 22 + 0x1FB14)
  else if offset = 42 then .ok (Char.ofNat 0x258C)
  else if 42 < offset ∧ offset < 63 then char_from_u32 (offset - 42 + 0x1FB27)
  else .ok (Char.ofNat 0x2588)

/-- uniblock::window_analysis: reads the 2 by 3 window at (x,y), bits in
row-major dot order. -/
def uniblock_window_analysis (luma : Img Nat) (x y : Nat) : Except Unit Char :=
  let count :=
    (luma.pix x y / 255) * 2 ^ 0 +
    (luma.pix (x + 1) y / 255) * 2 ^ 1 +
    (luma.pix x (y + 1) / 255) * 2 ^ 2 +
    (luma.pix (x + 1) (y + 1) / 255) * 2 ^ 3 +
    (luma.pix x (y + 2) / 255) * 2 ^ 4 +
    (luma.pix (x + 1) (y + 2) / 255) * 2 ^ 5
  get_sextant count

/-- Indicator used to state the braille bit packing: 1 exactly on
foreground (255) pixels. -/
def bitVal (p : Nat) : Nat := if p = 255 then 1 else 0

/-! ## Claim C8 -/

/-- C8: on a binarized 2 by 4 window the braille character is U+2800 plus the
byte whose bit i is set exactly when the i-th dot (column-major order, bottom
row last: (0,0),(0,1),(0,2),(1,0),(1,1),(1,2),(0,3),(1,3)) is 255; an
all-255 window gives U+28FF and an all-0 window gives U+2800. -/
theorem braille_window_spec (luma : Img Nat) (x y : Nat)
    (hpix : ∀ i j, i < 2 → j < 4 →
      luma.pix (x + i) (y + j) = 0 ∨ luma.pix (x + i) (y + j) = 255) :
    braile_window_analysis luma x y = .ok (Char.ofNat (0x2800 +
      (bitVal (luma.pix x y) * 2 ^ 0 +
       bitVal (luma.pix x (y + 1)) * 2 ^ 1 +
       bitVal (luma.pix x (y + 2)) * 2 ^ 2 +
       bitVal (luma.pix (x + 1) y) * 2 ^ 3 +
       bitVal (luma.pix (x + 1) (y + 1)) * 2 ^ 4 +
       bitVal (luma.pix (x + 1) (y + 2)) * 2 ^ 5 +
       bitVal (luma.pix x (y + 3)) * 2 ^ 6 +
       bitVal (luma.pix (x + 1) (y + 3)) * 2 ^ 7)))
    ∧ ((∀ i j, i < 2 → j < 4 → luma.pix (x + i) (y + j) = 255) →
        braile_window_analysis luma x y = .ok (Char.ofNat 0x28FF))
    ∧ ((∀ i j, i < 2 → j < 4 → luma.pix (x + i) (y + j) = 0) →
        braile_window_analysis luma x y = .ok (Char.ofNat 0x2800)) := by
  have hb : ∀ p : Nat, p = 0 ∨ p = 255 → p / 255 = bitVal p := by
    rintro p (rfl | rfl) <;> rfl
  have h00 := hb _ (hpix 0 0 (by omega) (by omega))
  have h01 := hb _ (hpix 0 1 (by omega) (by omega))
  have h02 := hb _ (hpix 0 2 (by omega) (by omega))
  have h03 := hb _ (hpix 0 3 (by omega) (by omega))
  have h10 := hb _ (hpix 1 0 (by omega) (by omega))
  have h11 := hb _ (hpix 1 1 (by omega) (by omega))
  have h12 := hb _ (hpix 1 2 (by omega) (by omega))
  have h13 := hb _ (hpix 1 3 (by omega) (by omega))
  simp only [Nat.add_zero] at h00 h01 h02 h03 h10 h11 h12 h13
  have hle : ∀ p : Nat, bitVal p ≤ 1 := by
    intro p
    rw [bitVal]
    split <;> omega
  have hmain : braile_window_analysis luma x y = .ok (Char.ofNat (0x2800 +
      (bitVal (luma.pix x y) * 2 ^ 0 +
       bitVal (luma.pix x (y + 1)) * 2 ^ 1 +
       bitVal (luma.pix x (y + 2)) * 2 ^ 2 +
       bitVal (luma.pix (x + 1) y) * 2 ^ 3 +
       bitVal (luma.pix (x + 1) (y + 1)) * 2 ^ 4 +
       bitVal (luma.pix (x + 1) (y + 2)) * 2 ^ 5 +
       bitVal (luma.pix x (y + 3)) * 2 ^ 6 +
       bitVal (luma.pix (x + 1) (y + 3)) * 2 ^ 7))) := by
    rw [braile_window_analysis]
    rw [h00, h01, h02, h10, h11, h12, h03, h13]
    rw [get_braile, char_from_u32, if_pos]
    · exact congrArg Except.ok (congrArg Char.ofNat (by ring))
    · left
      have b1 := hle (luma.pix x y)
      have b2 := hle (luma.pix x (y + 1))
      have b3 := hle (luma.pix x (y + 2))
      have b4 := hle (luma.pix (x + 1) y)
      have b5 := hle (luma.pix (x + 1) (y + 1))
      have b6 := hle (luma.pix (x + 1) (y + 2))
      have b7 := hle (luma.pix x (y + 3))
      have b8 := hle (luma.pix (x + 1) (y + 3))
      norm_num
      omega
  refine ⟨hmain, ?_, ?_⟩
  · intro hall
    have e00 := hall 0 0 (by omega) (by omega)
    have e01 := hall 0 1 (by omega) (by omega)
    have e02 := hall 0 2 (by omega) (by omega)
    have e03 := hall 0 3 (by omega) (by omega)
    have e10 := hall 1 0 (by omega) (by omega)
    have e11 := hall 1 1 (by omega) (by omega)
    have e12 := hall 1 2 (by omega) (by omega)
    have e13 := hall 1 3 (by omega) (by omega)
    simp only [Nat.add_zero] at e00 e01 e02 e03 e10 e11 e12 e13
    rw [hmain, e00, e01, e02, e03, e10, e11, e12, e13]
    norm_num [bitVal]
  · intro hall
    have e00 := hall 0 0 (by omega) (by omega)
    have e01 := hall 0 1 (by omega) (by omega)
    have e02 := hall 0 2 (by omega) (by omega)
    have e03 := hall 0 3 (by omega) (by omega)
    have e10 := hall 1 0 (by omega) (by omega)
    have e11 := hall 1 1 (by omega) (by omega)
    have e12 := hall 1 2 (by omega) (by omega)
    have e13 := hall 1 3 (by omega) (by omega)
    simp only [Nat.add_zero] at e00 e01 e02 e03 e10 e11 e12 e13
    rw [hmain, e00, e01, e02, e03, e10, e11, e12, e13]
    norm_num [bitVal]

/-- C8 witness: the packing evaluated on a window whose left column is 255
and right column is 0 (bits 0,1,2,6 set: U+2847), plus the all-255 case. -/
theorem braille_window_spec_witness :
    braile_window_analysis (Img.mk 2 4 (fun i _ => if i = 0 then 255 else 0)) 0 0
      = .ok (Char.ofNat 0x2847)
    ∧ braile_window_analysis (Img.mk 2 4 (fun _ _ => 255)) 0 0
      = .ok (Char.ofNat 0x28FF) := by
  constructor
  · have h := (braille_window_spec (Img.mk 2 4 (fun i _ => if i = 0 then 255 else 0)) 0 0
      (by intro i j hi hj; interval_cases i <;> simp)).1
    simpa using h
  · exact (braille_window_spec (Img.mk 2 4 (fun _ _ => 255)) 0 0
      (fun _ _ _ _ => Or.inr rfl)).2.1 (fun _ _ _ _ => rfl)

/-! ## Claim C9 -/

/-- C9: the sextant lookup sends offset 0 to the space, offsets 21 and 42 to
U+258C, offset 63 to U+2588, and every other offset in 1..62 without failure
to a character in the legacy-computing sextant range U+1FB00..U+1FB3B. -/
theorem get_sextant_spec :
    get_sextant 0 = .ok (Char.ofNat 32)
    ∧ get_sextant 21 = .ok (Char.ofNat 0x258C)
    ∧ get_sextant 42 = .ok (Char.ofNat 0x258C)
    ∧ get_sextant 63 = .ok (Char.ofNat 0x2588)
    ∧ ∀ o, 1 ≤ o → o ≤ 62 → o ≠ 21 → o ≠ 42 →
        ∃ c, get_sextant o = .ok c ∧ 0x1FB00 ≤ c.toNat ∧ c.toNat ≤ 0x1FB3B := by
  refine ⟨rfl, rfl, rfl, rfl, ?_⟩
  intro o h1 h62 h21 h42
  interval_cases o <;>
    first
      | exact absurd rfl h21
      | exact absurd rfl h42
      | exact ⟨_, rfl, by decide, by decide⟩

/-- C9 witness: offsets 1, 20, 22, 41, 43 and 62 evaluated through the
lookup. -/
theorem get_sextant_spec_witness :
    (∃ c, get_sextant 1 = .ok c ∧ 0x1FB00 ≤ c.toNat ∧ c.toNat ≤ 0x1FB3B)
    ∧ (∃ c, get_sextant 20 = .ok c ∧ 0x1FB00 ≤ c.toNat ∧ c.toNat ≤ 0x1FB3B)
    ∧ (∃ c, get_sextant 22 = .ok c ∧ 0x1FB00 ≤ c.toNat ∧ c.toNat ≤ 0x1FB3B)
    ∧ (∃ c, get_sextant 41 = .ok c ∧ 0x1FB00 ≤ c.toNat ∧ c.toNat ≤ 0x1FB3B)
    ∧ (∃ c, get_sextant 43 = .ok c ∧ 0x1FB00 ≤ c.toNat ∧ c.toNat ≤ 0x1FB3B)
    ∧ (∃ c, get_sextant 62 = .ok c ∧ 0x1FB00 ≤ c.toNat ∧ c.toNat ≤ 0x1FB3B) :=
  ⟨get_sextant_spec.2.2.2.2 1 (by decide) (by decide) (by decide) (by decide),
   get_sextant_spec.2.2.2.2 20 (by decide) (by decide) (by decide) (by decide),
   get_sextant_spec.2.2.2.2 22 (by decide) (by decide) (by decide) (by decide),
   get_sextant_spec.2.2.2.2 41 (by decide) (by decide) (by decide) (by decide),
   get_sextant_spec.2.2.2.2 43 (by decide) (by decide) (by decide) (by decide),
   get_sextant_spec.2.2.2.2 62 (by decide) (by decide) (by decide) (by decide)⟩

set_option maxRecDepth 10000 in
/-- C10 witness: positivity on two concrete distinct catalog glyphs and the
bound on the space glyph against itself. -/
theorem quadrance_props_witness :
    0 < AsciiFont.quadrance AsciiFont.default
        { ch := Char.ofNat 65, data := fontData [0x7E, 0x11, 0x11, 0x11, 0x7E] }
    ∧ AsciiFont.quadrance AsciiFont.default AsciiFont.default ≤ 35 * 255 ^ 2 :=
  ⟨quadrance_props.2.2.2.1 _ (by decide) _ (by decide) (by decide),
   quadrance_props.2.2.2.2 _ _ (by decide) (by decide) (by decide) (by decide)⟩

end Ansinator
